import Mathlib

/-!
Shallow embedding of the core of `src/extension.ts` (FileTree Exporter):
the pattern matcher `shouldIgnorePath` (lines 116-131), the tree walker
`getAllFilesAndFolders` (lines 136-173), the pattern loader
`loadIgnorePatterns` (lines 95-111), and the multi-root orchestration of
`extractFileStructure` (lines 178-283).

Paths and patterns are Lean `String`s; the JavaScript string operations the
source uses are implemented over `String.data`.  The JavaScript regular
expression built at line 124 (`new RegExp(pattern.replace(/\*/g, '.*'))`,
tested unanchored via `regex.test`) is modelled by a small regex engine
covering the fragment the translated patterns can fall into: literal
characters, `.` (any single character other than an ECMAScript line
terminator, as JS `.` behaves without the `s` flag) and the postfix
quantifiers `*`, `+`, `?`.  Patterns using regex constructs outside this fragment (groups, classes,
alternation, anchors, escapes, braces) are outside the model: `parseRegex`
returns `none` for them and all theorems about the wildcard branch carry a
`plainPat` hypothesis restricting to the modelled fragment.
-/

/-- JS `s.startsWith(p)` (source lines 121 and 128). -/
def strStartsWith (s p : String) : Bool := p.data.isPrefixOf s.data

/-- JS `s.endsWith(p)` (source line 119, `pattern.endsWith('/')`). -/
def strEndsWith (s p : String) : Bool := p.data.isSuffixOf s.data

/-- JS `s.slice(0, -1)` (source line 121): the string without its last character. -/
def strDropLast (s : String) : String := String.mk s.data.dropLast

/-- JS `s.includes(c)` for a single character (source line 122, `pattern.includes('*')`). -/
def strContainsChar (s : String) (c : Char) : Bool := s.data.contains c

/-- A regex atom of the modelled fragment: `.` or a literal character. -/
inductive RAtom where
  | dot : RAtom
  | lit : Char → RAtom
deriving DecidableEq

/-- A regex token of the modelled fragment: an atom, bare or under a postfix
quantifier `*`, `+` or `?`. -/
inductive RTok where
  | once : RAtom → RTok
  | star : RAtom → RTok
  | plus : RAtom → RTok
  | opt : RAtom → RTok
deriving DecidableEq

/-- Regex metacharacters whose constructs the model does not cover (JS would
treat them as groups, classes, quantifier braces, anchors, alternation or
escapes). -/
def isUnsupportedMeta (c : Char) : Bool :=
  c = '(' || c = ')' || c = '[' || c = ']' || c = '{' || c = '}' ||
  c = '^' || c = '$' || c = '|' || c = '\\'

/-- Parse a translated pattern into tokens of the modelled fragment;
`none` when the pattern uses a construct outside the fragment (where the
JS engine would either error out or need features the model omits). -/
def parseRegex : List Char → Option (List RTok)
  | [] => some []
  | [c] =>
    if isUnsupportedMeta c || c = '*' || c = '+' || c = '?' then none
    else some [RTok.once (if c = '.' then RAtom.dot else RAtom.lit c)]
  | c :: q :: rest' =>
    if isUnsupportedMeta c || c = '*' || c = '+' || c = '?' then none
    else
      let a := if c = '.' then RAtom.dot else RAtom.lit c
      if q = '*' then (parseRegex rest').map (fun ts => RTok.star a :: ts)
      else if q = '+' then (parseRegex rest').map (fun ts => RTok.plus a :: ts)
      else if q = '?' then (parseRegex rest').map (fun ts => RTok.opt a :: ts)
      else (parseRegex (q :: rest')).map (fun ts => RTok.once a :: ts)

/-- An ECMAScript LineTerminator character: LF, CR, LINE SEPARATOR or
PARAGRAPH SEPARATOR.  JS `.` in a regex without the `s` flag matches any
character except these. -/
def isLineTerminator (c : Char) : Bool :=
  c = '\n' || c = '\r' || c = '\u2028' || c = '\u2029'

/-- Does an atom match one character?  `.` matches any character other than a
line terminator, as JS `.` does without the `s` flag. -/
def amatch : RAtom → Char → Bool
  | RAtom.dot, d => !isLineTerminator d
  | RAtom.lit c, d => c = d

/-- Match a token list against some prefix of the character list (the match
need not consume the whole input: `test` is unanchored at the right end). -/
def rmatch : List RTok → List Char → Bool
  | [], _ => true
  | RTok.once a :: ts, cs =>
    match cs with
    | [] => false
    | c :: cs' => amatch a c && rmatch ts cs'
  | RTok.star a :: ts, cs =>
    rmatch ts cs ||
      (match cs with
       | [] => false
       | c :: cs' => amatch a c && rmatch (RTok.star a :: ts) cs')
  | RTok.plus a :: ts, cs =>
    match cs with
    | [] => false
    | c :: cs' => amatch a c && rmatch (RTok.star a :: ts) cs'
  | RTok.opt a :: ts, cs =>
    rmatch ts cs ||
      (match cs with
       | [] => false
       | c :: cs' => amatch a c && rmatch ts cs')
termination_by ts cs => ts.length + cs.length

/-- Unanchored search, as JS `regex.test(s)`: try to match starting at every
position of the input. -/
def regexSearch (toks : List RTok) : List Char → Bool
  | [] => rmatch toks []
  | c :: cs => rmatch toks (c :: cs) || regexSearch toks cs

/-- JS `pattern.replace(/\*/g, '.*')` (source line 124). -/
def translateStars : List Char → List Char
  | [] => []
  | c :: rest => if c = '*' then '.' :: '*' :: translateStars rest else c :: translateStars rest

/-- One pattern against one relative path: the body of the `some` callback at
source lines 117-130, with its three-way dispatch (trailing `/`, then `*`,
then exact-or-child-prefix). -/
def matchesPattern (relativePath pat : String) : Bool :=
  if strEndsWith pat "/" then
    strStartsWith relativePath pat || strStartsWith relativePath (strDropLast pat)
  else if strContainsChar pat '*' then
    match parseRegex (translateStars pat.data) with
    | some toks => regexSearch toks relativePath.data
    | none => false
  else
    relativePath == pat || strStartsWith relativePath (pat ++ "/")

/-- Source lines 116-131: `true` iff some pattern in the list matches
(`ignorePatterns.some(...)`). -/
def shouldIgnorePath (relativePath : String) (ignorePatterns : List String) : Bool :=
  ignorePatterns.any (fun pat => matchesPattern relativePath pat)

/-- Helper: `isPrefixOf` as an existence of a suffix. -/
theorem isPrefixOfE : ∀ (l m : List Char), l.isPrefixOf m = true ↔ ∃ t, m = l ++ t := by
  intro l
  induction l with
  | nil => intro m; simp [List.isPrefixOf]
  | cons a l ih =>
    intro m
    cases m with
    | nil => simp [List.isPrefixOf]
    | cons c m' =>
      simp only [List.isPrefixOf, Bool.and_eq_true, beq_iff_eq, ih m', List.cons_append,
        List.cons.injEq]
      constructor
      · rintro ⟨h1, t, h2⟩; exact ⟨t, h1.symm, h2⟩
      · rintro ⟨t, h1, h2⟩; exact ⟨h1.symm, t, h2⟩

/-- Helper: a prefix stays a prefix after dropping its own last element. -/
theorem isPrefixOfDropLast (l m : List Char) (h : l.isPrefixOf m = true) :
    l.dropLast.isPrefixOf m = true := by
  rcases (isPrefixOfE l m).mp h with ⟨t, rfl⟩
  rcases Nat.eq_zero_or_pos l.length with hl | hl
  · simp [List.eq_nil_of_length_eq_zero hl, List.isPrefixOf]
  · have hd : l.dropLast ++ (l.getLast (List.ne_nil_of_length_pos hl) :: t) = l ++ t := by
      have hsplit := List.dropLast_append_getLast (List.ne_nil_of_length_pos hl)
      calc l.dropLast ++ (l.getLast (List.ne_nil_of_length_pos hl) :: t)
          = (l.dropLast ++ [l.getLast (List.ne_nil_of_length_pos hl)]) ++ t := by simp
        _ = l ++ t := by rw [hsplit]
    exact (isPrefixOfE l.dropLast (l ++ t)).mpr ⟨_, hd.symm⟩

/-- Shared helper: on a single pattern with a trailing slash, `shouldIgnorePath`
is the dual startsWith check of source line 121. -/
theorem shouldIgnore_dir_eq (pat relativePath : String) (h : strEndsWith pat "/" = true) :
    shouldIgnorePath relativePath [pat] =
      (strStartsWith relativePath pat || strStartsWith relativePath (strDropLast pat)) := by
  simp [shouldIgnorePath, matchesPattern, h]

/-- Shared helper: starting with a string implies starting with that string
minus its last character. -/
theorem startsWith_dropLast_of_startsWith (s p : String) (h : strStartsWith s p = true) :
    strStartsWith s (strDropLast p) = true :=
  isPrefixOfDropLast p.data s.data h

/-- Claim C2: for every pattern ending with `/`, `shouldIgnorePath` matches
exactly when the relative path starts with the full pattern text or starts
with the pattern text with its trailing `/` removed. -/
theorem claim_directory_pattern_rule (pat relativePath : String)
    (h : strEndsWith pat "/" = true) :
    shouldIgnorePath relativePath [pat] =
      (strStartsWith relativePath pat || strStartsWith relativePath (strDropLast pat)) :=
  shouldIgnore_dir_eq pat relativePath h

/-- Witness for C2 at the spec's three concrete examples. -/
theorem claim_directory_pattern_rule_witness :
    shouldIgnorePath "node_modules/x.js" ["node_modules/"] = true ∧
    shouldIgnorePath "node_modules" ["node_modules/"] = true ∧
    shouldIgnorePath "not_node_modules/x" ["node_modules/"] = false :=
  ⟨(claim_directory_pattern_rule "node_modules/" "node_modules/x.js" (by decide)).trans
      (by decide),
   (claim_directory_pattern_rule "node_modules/" "node_modules" (by decide)).trans (by decide),
   (claim_directory_pattern_rule "node_modules/" "not_node_modules/x" (by decide)).trans
      (by decide)⟩

/-- Counterexample to claim C3: the relative path `node_modulesX` is not equal
to the stripped pattern text `node_modules`, yet the second branch changes the
result — the path does not start with the full pattern `node_modules/`, but
`shouldIgnorePath` still matches. -/
theorem claim_stripped_branch_counterexample :
    "node_modulesX" ≠ strDropLast "node_modules/" ∧
    strStartsWith "node_modulesX" "node_modules/" = false ∧
    shouldIgnorePath "node_modulesX" ["node_modules/"] = true := by
  refine ⟨by decide, by decide, ?_⟩
  decide

/-- Claim C3 as amended: for every pattern ending with `/`, the dual check
collapses to its second branch alone — `shouldIgnorePath` matches exactly when
the relative path starts with the pattern text minus its trailing `/` (so the
second branch widens the first for every path that starts with the stripped
text but not with the full pattern, such as `node_modulesX`, not only for a
path equal to the stripped text). -/
theorem claim_stripped_branch_rule (pat relativePath : String)
    (h : strEndsWith pat "/" = true) :
    shouldIgnorePath relativePath [pat] = strStartsWith relativePath (strDropLast pat) := by
  rw [shouldIgnore_dir_eq pat relativePath h]
  cases hfull : strStartsWith relativePath pat with
  | false => simp
  | true => simp [startsWith_dropLast_of_startsWith relativePath pat hfull]

/-- Witness for the amended C3. -/
theorem claim_stripped_branch_rule_witness :
    shouldIgnorePath "node_modulesX" ["node_modules/"] =
      strStartsWith "node_modulesX" (strDropLast "node_modules/") :=
  claim_stripped_branch_rule "node_modules/" "node_modulesX" (by decide)

/-- Claim C5: for every pattern with no `*` and no trailing `/`,
`shouldIgnorePath` matches exactly when the relative path equals the pattern
or starts with the pattern followed by `/`. -/
theorem claim_exact_or_child_rule (pat relativePath : String)
    (h1 : strEndsWith pat "/" = false) (h2 : strContainsChar pat '*' = false) :
    shouldIgnorePath relativePath [pat] =
      (relativePath == pat || strStartsWith relativePath (pat ++ "/")) := by
  simp [shouldIgnorePath, matchesPattern, h1, h2]

/-- Witness for C5 at the spec's concrete examples. -/
theorem claim_exact_or_child_rule_witness :
    shouldIgnorePath "src/utils" ["src"] = true ∧
    shouldIgnorePath "srcfoo" ["src"] = false :=
  ⟨(claim_exact_or_child_rule "src" "src/utils" (by decide) (by decide)).trans (by decide),
   (claim_exact_or_child_rule "src" "srcfoo" (by decide) (by decide)).trans (by decide)⟩

/-- Claim C10: dispatch precedence — a pattern that both ends with `/` and
contains `*` is handled by the directory-prefix rule (with `*` as a literal
character of the compared text), never by the wildcard rule. -/
theorem claim_dispatch_precedence (pat relativePath : String)
    (h1 : strEndsWith pat "/" = true) (_h2 : strContainsChar pat '*' = true) :
    shouldIgnorePath relativePath [pat] =
      (strStartsWith relativePath pat || strStartsWith relativePath (strDropLast pat)) :=
  shouldIgnore_dir_eq pat relativePath h1

/-- Witness for C10 at pattern `foo*/`: the literal `*` path matches, while a
path the wildcard rule would have matched does not. -/
theorem claim_dispatch_precedence_witness :
    shouldIgnorePath "foo*/a" ["foo*/"] = true ∧
    shouldIgnorePath "foobar/a" ["foo*/"] = false :=
  ⟨(claim_dispatch_precedence "foo*/" "foo*/a" (by decide) (by decide)).trans (by decide),
   (claim_dispatch_precedence "foo*/" "foobar/a" (by decide) (by decide)).trans (by decide)⟩

/-- JS `content.split(/\r?\n/)` (source line 100): split on `\n` or `\r\n`;
a lone `\r` not followed by `\n` stays inside its line. -/
def splitRN : List Char → List (List Char)
  | [] => [[]]
  | '\r' :: '\n' :: rest => [] :: splitRN rest
  | '\n' :: rest => [] :: splitRN rest
  | c :: rest =>
    match splitRN rest with
    | [] => [[c]]
    | l :: ls => (c :: l) :: ls

/-- The character set JS `String.prototype.trim` strips: ECMAScript WhiteSpace
(tab, vertical tab, form feed, space, no-break space, BOM and the Unicode
space separators) and LineTerminator characters. -/
def jsWhitespace (c : Char) : Bool :=
  c = ' ' || c = '\t' || c = '\n' || c = '\x0B' || c = '\x0C' || c = '\r' ||
  c = '\u00A0' || c = '\u1680' || c = '\u2000' || c = '\u2001' || c = '\u2002' ||
  c = '\u2003' || c = '\u2004' || c = '\u2005' || c = '\u2006' || c = '\u2007' ||
  c = '\u2008' || c = '\u2009' || c = '\u200A' || c = '\u2028' || c = '\u2029' ||
  c = '\u202F' || c = '\u205F' || c = '\u3000' || c = '\uFEFF'

/-- JS `line.trim()` (source line 102): strip whitespace from both ends. -/
def jsTrim (cs : List Char) : List Char :=
  ((cs.dropWhile jsWhitespace).reverse.dropWhile jsWhitespace).reverse

/-- Source lines 95-111, `loadIgnorePatterns`, over the result of the file
read (`Except.error` models a rejected `fs.promises.readFile`, including the
file's absence): split the content on `\r?\n`, trim each line, keep the lines
that are non-empty and do not start with `#`; any read failure yields `[]`. -/
def loadIgnorePatterns (readResult : Except String String) : List String :=
  match readResult with
  | Except.error _ => []
  | Except.ok content =>
    (((splitRN content.data).map jsTrim).map String.mk).filter
      (fun line => line ≠ "" && !(strStartsWith line "#"))

/-- Modelled from claim C9's words (for comparison with `loadIgnorePatterns`):
split on `\n` or `\r\n`, drop every blank line and every line starting with
`#`, and return the remaining lines — verbatim, with no trimming. -/
def loadIgnorePatternsClaim (readResult : Except String String) : List String :=
  match readResult with
  | Except.error _ => []
  | Except.ok content =>
    ((splitRN content.data).map String.mk).filter
      (fun line => line ≠ "" && !(strStartsWith line "#"))

/-- Counterexample to claim C9: the code trims each line before filtering and
returning, so a line with surrounding whitespace is not returned verbatim
(`"a "` comes back as `"a"`), and a line whose `#` follows leading whitespace
is dropped even though it does not start with `#`. -/
theorem claim_pattern_loading_counterexample :
    loadIgnorePatterns (Except.ok "a \n #c") = ["a"] ∧
    loadIgnorePatternsClaim (Except.ok "a \n #c") = ["a ", " #c"] := by
  constructor <;> decide

/-- Claim C9 as amended: pattern loading splits the content on `\n` or `\r\n`,
trims each line, drops every line that is blank after trimming and every line
that starts with `#` after trimming, and returns the remaining trimmed lines;
any failure to read the pattern source yields the empty pattern list. -/
theorem claim_pattern_loading (err : String) (content : String) (p : String) :
    loadIgnorePatterns (Except.error err) = [] ∧
    (p ∈ loadIgnorePatterns (Except.ok content) ↔
      ∃ line ∈ splitRN content.data,
        String.mk (jsTrim line) = p ∧ p ≠ "" ∧ strStartsWith p "#" = false) := by
  refine ⟨rfl, ?_⟩
  simp only [loadIgnorePatterns, List.mem_filter, List.mem_map, Bool.and_eq_true,
    Bool.not_eq_true', decide_eq_true_eq, ne_eq]
  constructor
  · rintro ⟨⟨tl, ⟨line, hline, rfl⟩, rfl⟩, hne, hhash⟩
    exact ⟨line, hline, rfl, by simpa using hne, hhash⟩
  · rintro ⟨line, hline, rfl, hne, hhash⟩
    exact ⟨⟨jsTrim line, ⟨line, hline, rfl⟩, rfl⟩, by simpa using hne, hhash⟩

/-- A filesystem node as the walker sees it: a file, or a directory whose
listing either succeeds with children (`readErr = none`) or fails with an
error message (`readErr = some msg`; the children are then unreachable). -/
inductive FSNode where
  | file (name : String)
  | dir (name : String) (readErr : Option String) (children : List FSNode)

/-- The name of a node (`entry.name`). -/
def nodeName : FSNode → String
  | FSNode.file n => n
  | FSNode.dir n _ _ => n

/-- The root-relative path of a child named `name` of the directory whose
root-relative path is `relDir`: what `path.relative(rootPath, fullPath)` with
separators normalized to `/` (source line 144) yields while the walk descends
from `rootPath`. -/
def childRel (relDir name : String) : String :=
  if relDir = "" then name else relDir ++ "/" ++ name

/-- The loop body of `getAllFilesAndFolders` (source lines 142-165) over a
successfully listed entry list.  For a subdirectory, the recursive call
`getAllFilesAndFolders(fullPath, indent + "  ", ...)` can only throw from its
own top-level listing, with message
`Failed to read directory <fullPath>: <msg>` (line 169); the local catch
(lines 159-163) turns that into the single synthetic line
`<indent>  [Error reading directory: <message>]` and the loop continues with
the remaining siblings.  That throw/catch pair is inlined here in the
`dir` case's `readErr` match; `getAllFilesAndFolders` below re-exposes the
top-level throw. -/
def walkChildren : List FSNode → String → String → List String → String → List String
  | [], _, _, _, _ => []
  | FSNode.file name :: rest, dirPath, indent, patterns, relDir =>
    if shouldIgnorePath (childRel relDir name) patterns then
      walkChildren rest dirPath indent patterns relDir
    else
      (indent ++ name) :: walkChildren rest dirPath indent patterns relDir
  | FSNode.dir name readErr cs :: rest, dirPath, indent, patterns, relDir =>
    if shouldIgnorePath (childRel relDir name) patterns then
      walkChildren rest dirPath indent patterns relDir
    else
      (indent ++ name) ::
        ((match readErr with
          | some msg =>
            [indent ++ "  " ++ "[Error reading directory: " ++
              ("Failed to read directory " ++ (dirPath ++ "/" ++ name) ++ ": " ++ msg) ++ "]"]
          | none =>
            walkChildren cs (dirPath ++ "/" ++ name) (indent ++ "  ") patterns
              (childRel relDir name)) ++
          walkChildren rest dirPath indent patterns relDir)

/-- Source lines 136-173: list the directory and walk its entries; a failure
of the top-level listing itself propagates as a thrown
`Failed to read directory <dirPath>: <msg>` (line 169) instead of returning
partial output. -/
def getAllFilesAndFolders (readErr : Option String) (children : List FSNode)
    (dirPath indent : String) (patterns : List String) (relDir : String) :
    Except String (List String) :=
  match readErr with
  | some msg => Except.error ("Failed to read directory " ++ dirPath ++ ": " ++ msg)
  | none => Except.ok (walkChildren children dirPath indent patterns relDir)

/-- Sanity: the `dir` case of `walkChildren` is exactly the recursive
`getAllFilesAndFolders` call with its thrown error caught into the synthetic
line, as in source lines 155-164. -/
theorem walkChildren_dir_eq_recursive_call (name : String) (readErr : Option String)
    (cs rest : List FSNode) (dirPath indent : String) (patterns : List String)
    (relDir : String) (h : shouldIgnorePath (childRel relDir name) patterns = false) :
    walkChildren (FSNode.dir name readErr cs :: rest) dirPath indent patterns relDir =
      (indent ++ name) ::
        ((match getAllFilesAndFolders readErr cs (dirPath ++ "/" ++ name) (indent ++ "  ")
            patterns (childRel relDir name) with
          | Except.ok subResults => subResults
          | Except.error msg =>
            [indent ++ "  " ++ "[Error reading directory: " ++ msg ++ "]"]) ++
          walkChildren rest dirPath indent patterns relDir) := by
  cases readErr with
  | none => simp [walkChildren, getAllFilesAndFolders, h]
  | some msg => simp [walkChildren, getAllFilesAndFolders, h]

/-- Helper: the walk processes entries independently, so it distributes over
list append. -/
theorem walkChildren_append (xs ys : List FSNode) (dirPath indent : String)
    (patterns : List String) (relDir : String) :
    walkChildren (xs ++ ys) dirPath indent patterns relDir =
      walkChildren xs dirPath indent patterns relDir ++
        walkChildren ys dirPath indent patterns relDir := by
  induction xs with
  | nil => simp [walkChildren]
  | cons x rest ih =>
    cases x with
    | file name =>
      by_cases h : shouldIgnorePath (childRel relDir name) patterns = true
      · simp [walkChildren, h, ih]
      · simp [walkChildren, Bool.eq_false_iff.mpr h, ih]
    | dir name readErr cs =>
      cases readErr with
      | none =>
        by_cases h : shouldIgnorePath (childRel relDir name) patterns = true
        · simp [walkChildren, h, ih]
        · simp [walkChildren, Bool.eq_false_iff.mpr h, ih]
      | some msg =>
        by_cases h : shouldIgnorePath (childRel relDir name) patterns = true
        · simp [walkChildren, h, ih]
        · simp [walkChildren, Bool.eq_false_iff.mpr h, ih]

/-- Claim C4: a failed top-level listing propagates a thrown error to the
caller, while a failed nested listing is caught locally — the walk emits the
failing subdirectory's own name line, exactly one synthetic
`[Error reading directory: <message>]` line indented one level deeper, and the
siblings before and after the failing subdirectory are preserved. -/
theorem claim_walk_error_handling :
    (∀ (msg : String) (children : List FSNode) (dirPath indent : String)
      (patterns : List String) (relDir : String),
      getAllFilesAndFolders (some msg) children dirPath indent patterns relDir =
        Except.error ("Failed to read directory " ++ dirPath ++ ": " ++ msg)) ∧
    (∀ (beforeEntries afterEntries : List FSNode) (name msg : String) (cs : List FSNode)
      (dirPath indent : String) (patterns : List String) (relDir : String),
      shouldIgnorePath (childRel relDir name) patterns = false →
      walkChildren (beforeEntries ++ FSNode.dir name (some msg) cs :: afterEntries)
          dirPath indent patterns relDir =
        walkChildren beforeEntries dirPath indent patterns relDir ++
          (indent ++ name) ::
          (indent ++ "  " ++ "[Error reading directory: " ++
            ("Failed to read directory " ++ (dirPath ++ "/" ++ name) ++ ": " ++ msg) ++ "]") ::
          walkChildren afterEntries dirPath indent patterns relDir) := by
  constructor
  · intro msg children dirPath indent patterns relDir
    rfl
  · intro beforeEntries afterEntries name msg cs dirPath indent patterns relDir h
    rw [walkChildren_append]
    simp [walkChildren, h]

/-- Witness for C4: a root whose listing fails throws; a tree whose middle
subdirectory fails keeps both siblings and gets exactly one error line at the
child depth. -/
theorem claim_walk_error_handling_witness :
    getAllFilesAndFolders (some "EACCES") [FSNode.file "a.txt"] "/root" "" [] "" =
      Except.error ("Failed to read directory " ++ "/root" ++ ": " ++ "EACCES") ∧
    walkChildren ([FSNode.file "a.txt"] ++
        FSNode.dir "b" (some "EACCES") [FSNode.file "hidden.txt"] :: [FSNode.file "c.txt"])
        "/root" "" [] "" =
      ["a.txt", "b", "  [Error reading directory: Failed to read directory /root/b: EACCES]",
        "c.txt"] :=
  ⟨claim_walk_error_handling.1 "EACCES" [FSNode.file "a.txt"] "/root" "" [] "",
   (claim_walk_error_handling.2 [FSNode.file "a.txt"] [FSNode.file "c.txt"] "b" "EACCES"
      [FSNode.file "hidden.txt"] "/root" "" [] "" (by decide)).trans
     (by simp [walkChildren, shouldIgnorePath, childRel])⟩

/-- Claim C6: an entry whose root-relative path is ignored produces no line
and, for a directory, no recursion — the walk's output over the entry list is
the output over the same list with the whole entry (and hence its subtree)
removed. -/
theorem claim_ignored_subtree_pruned (beforeEntries afterEntries : List FSNode) (e : FSNode)
    (dirPath indent : String) (patterns : List String) (relDir : String)
    (h : shouldIgnorePath (childRel relDir (nodeName e)) patterns = true) :
    walkChildren (beforeEntries ++ e :: afterEntries) dirPath indent patterns relDir =
      walkChildren (beforeEntries ++ afterEntries) dirPath indent patterns relDir := by
  rw [walkChildren_append, walkChildren_append]
  cases e with
  | file name => simp [walkChildren, nodeName] at h ⊢; simp [h]
  | dir name readErr cs =>
    cases readErr with
    | none => simp [walkChildren, nodeName] at h ⊢; simp [h]
    | some msg => simp [walkChildren, nodeName] at h ⊢; simp [h]

/-- Witness for C6: ignoring `b` removes both its line and its child's line,
leaving the siblings. -/
theorem claim_ignored_subtree_pruned_witness :
    walkChildren ([FSNode.file "a.txt"] ++
        FSNode.dir "b" none [FSNode.file "c.txt"] :: [FSNode.file "d.txt"])
        "/root" "" ["b"] "" =
      walkChildren ([FSNode.file "a.txt"] ++ [FSNode.file "d.txt"]) "/root" "" ["b"] "" :=
  claim_ignored_subtree_pruned [FSNode.file "a.txt"] [FSNode.file "d.txt"]
    (FSNode.dir "b" none [FSNode.file "c.txt"]) "/root" "" ["b"] "" (by decide)

/-- Two spaces per depth level: the indentation string the walk has built by
appending `"  "` once per recursion level (source line 157). -/
def dupIndent : Nat → String
  | 0 => ""
  | n + 1 => dupIndent n ++ "  "

/-- No directory listing anywhere in the entry list fails. -/
def errFreeL : List FSNode → Bool
  | [] => true
  | FSNode.file _ :: rest => errFreeL rest
  | FSNode.dir _ (some _) _ :: _ => false
  | FSNode.dir _ none cs :: rest => errFreeL cs && errFreeL rest

/-- Modelled from claim C7's words: the rendered TreeLine sequence — for each
non-ignored entry, in the listing's native order and pre-order, one line of
two spaces per depth level followed by the entry's bare name, children one
level deeper.  (Defined for error-free trees; error lines are claim C4's
concern.) -/
def renderSpecL (patterns : List String) : List FSNode → Nat → String → List String
  | [], _, _ => []
  | FSNode.file name :: rest, depth, relDir =>
    (if shouldIgnorePath (childRel relDir name) patterns then []
     else [dupIndent depth ++ name]) ++ renderSpecL patterns rest depth relDir
  | FSNode.dir name _ cs :: rest, depth, relDir =>
    (if shouldIgnorePath (childRel relDir name) patterns then []
     else (dupIndent depth ++ name) ::
       renderSpecL patterns cs (depth + 1) (childRel relDir name)) ++
      renderSpecL patterns rest depth relDir

/-- Helper for C7, generalized over the indent string: whenever the walk is
invoked with the indentation of depth `d`, its output is the spec-side
pre-order rendering at depth `d`. -/
theorem walk_renders_gen (entries : List FSNode) (dirPath indent : String)
    (patterns : List String) (relDir : String) :
    ∀ depth : Nat, indent = dupIndent depth → errFreeL entries = true →
      walkChildren entries dirPath indent patterns relDir =
        renderSpecL patterns entries depth relDir := by
  induction entries, dirPath, indent, patterns, relDir using walkChildren.induct with
  | case1 dirPath indent patterns relDir =>
    intro depth _ _
    simp [walkChildren, renderSpecL]
  | case2 name rest dirPath indent patterns relDir hig ih =>
    intro depth hdep hfree
    have hfree' : errFreeL rest = true := by simpa [errFreeL] using hfree
    simp [walkChildren, renderSpecL, hig, ih depth hdep hfree']
  | case3 name rest dirPath indent patterns relDir hig ih =>
    intro depth hdep hfree
    have hfree' : errFreeL rest = true := by simpa [errFreeL] using hfree
    subst hdep
    simp [walkChildren, renderSpecL, Bool.eq_false_iff.mpr hig, ih depth rfl hfree']
  | case4 name readErr cs rest dirPath indent patterns relDir hig ih =>
    intro depth hdep hfree
    cases readErr with
    | some msg => simp [errFreeL] at hfree
    | none =>
      have hfree' : errFreeL rest = true := by
        have := hfree
        simp [errFreeL, Bool.and_eq_true] at this
        exact this.2
      simp [walkChildren, renderSpecL, hig, ih depth hdep hfree']
  | case5 name readErr cs rest dirPath indent patterns relDir hig hcs ih =>
    intro depth hdep hfree
    cases readErr with
    | some msg => simp [errFreeL] at hfree
    | none =>
      have hsplit : errFreeL cs = true ∧ errFreeL rest = true := by
        have := hfree
        simpa [errFreeL, Bool.and_eq_true] using this
      subst hdep
      have hsub := hcs (depth + 1) rfl hsplit.1
      simp [walkChildren, renderSpecL, Bool.eq_false_iff.mpr hig, hsub,
        ih depth rfl hsplit.2]

/-- Claim C7: with the indentation of depth `d`, every emitted TreeLine is two
spaces per depth level followed by the entry's bare name, non-ignored entries
appearing in pre-order in the listing's native order (error-free trees). -/
theorem claim_treeline_rendering (entries : List FSNode) (dirPath : String)
    (patterns : List String) (relDir : String) (depth : Nat)
    (hfree : errFreeL entries = true) :
    walkChildren entries dirPath (dupIndent depth) patterns relDir =
      renderSpecL patterns entries depth relDir :=
  walk_renders_gen entries dirPath (dupIndent depth) patterns relDir depth rfl hfree

/-- Witness for C7 at the spec's example tree `root/{a.txt, b/{c.txt}}` with no
ignore patterns: the lines are exactly `["a.txt", "b", "  c.txt"]`. -/
theorem claim_treeline_rendering_witness :
    walkChildren [FSNode.file "a.txt", FSNode.dir "b" none [FSNode.file "c.txt"]]
        "/root" "" [] "" =
      ["a.txt", "b", "  c.txt"] :=
  (claim_treeline_rendering
      [FSNode.file "a.txt", FSNode.dir "b" none [FSNode.file "c.txt"]]
      "/root" [] "" 0 (by simp [errFreeL])).trans
    (by simp [renderSpecL, shouldIgnorePath, childRel, dupIndent])

/-- JS `array.join('\n')` (source lines 230, 232, 256). -/
def joinNL : List String → String
  | [] => ""
  | [l] => l
  | l :: rest => l ++ "\n" ++ joinNL rest

/-- One workspace folder as `extractFileStructure` consumes it: its display
name, its filesystem root path, its already-loaded ignore patterns, and its
root directory listing (`readErr`/`children` as for the walker). -/
structure Workspace where
  name : String
  fsPath : String
  patterns : List String
  readErr : Option String
  children : List FSNode

/-- The per-workspace body string of source lines 218-247: the walked
structure joined with newlines on success, `[Error: <message>]` when the
root-level walk throws. -/
def workspaceBody (w : Workspace) : String :=
  match getAllFilesAndFolders w.readErr w.children w.fsPath "" w.patterns "" with
  | Except.ok lines => joinNL lines
  | Except.error msg => "[Error: " ++ msg ++ "]"

/-- The `results` array built by the loop at source lines 213-248: one string
per workspace, banner-prefixed exactly when the invocation has more than one
workspace folder. -/
def extractResults (total : Nat) : List Workspace → List String
  | [] => []
  | w :: rest =>
    (if total > 1 then "\n=== Workspace: " ++ w.name ++ " ===\n" ++ workspaceBody w
     else workspaceBody w) :: extractResults total rest

/-- Source lines 178-283, reduced to its output payload: `none` models the
early return when no workspace is open (line 180); otherwise the newline-join
of the per-workspace results (line 256). -/
def extractFileStructure (ws : List Workspace) : Option String :=
  match ws with
  | [] => none
  | _ :: _ => some (joinNL (extractResults ws.length ws))

/-- Helper: with more than one workspace in total, every result entry carries
its banner. -/
theorem extractResults_of_many (total : Nat) (h : 1 < total) :
    ∀ ws : List Workspace,
      extractResults total ws =
        ws.map (fun w => "\n=== Workspace: " ++ w.name ++ " ===\n" ++ workspaceBody w) := by
  intro ws
  induction ws with
  | nil => rfl
  | cons w rest ih => simp [extractResults, h, ih]

/-- Claim C8: each root produces one independent line sequence; with more than
one root, every root's sequence is prefixed by a banner naming that root and
the sequences are concatenated in root order; with exactly one root, the bare
sequence is emitted with no banner. -/
theorem claim_multiroot_banners :
    (∀ w : Workspace, extractFileStructure [w] = some (workspaceBody w)) ∧
    (∀ ws : List Workspace, 1 < ws.length →
      extractFileStructure ws =
        some (joinNL (ws.map
          (fun w => "\n=== Workspace: " ++ w.name ++ " ===\n" ++ workspaceBody w)))) := by
  constructor
  · intro w
    simp [extractFileStructure, extractResults, joinNL]
  · intro ws h
    match ws, h with
    | w :: rest, h =>
      simp only [extractFileStructure]
      rw [extractResults_of_many (w :: rest).length h]

/-- Witness for C8: two roots produce two banner-prefixed sections in root
order; a single root produces its bare sequence with no banner. -/
theorem claim_multiroot_banners_witness :
    extractFileStructure
        [⟨"A", "/A", [], none, [FSNode.file "a.txt"]⟩,
         ⟨"B", "/B", [], none, [FSNode.file "b.txt"]⟩] =
      some "\n=== Workspace: A ===\na.txt\n\n=== Workspace: B ===\nb.txt" ∧
    extractFileStructure [⟨"A", "/A", [], none, [FSNode.file "a.txt"]⟩] = some "a.txt" :=
  ⟨(claim_multiroot_banners.2
      [⟨"A", "/A", [], none, [FSNode.file "a.txt"]⟩,
       ⟨"B", "/B", [], none, [FSNode.file "b.txt"]⟩] (by decide)).trans
    (by simp [workspaceBody, getAllFilesAndFolders, walkChildren, shouldIgnorePath,
      childRel, joinNL]),
   (claim_multiroot_banners.1 ⟨"A", "/A", [], none, [FSNode.file "a.txt"]⟩).trans
    (by simp [workspaceBody, getAllFilesAndFolders, walkChildren, shouldIgnorePath,
      childRel, joinNL])⟩

/-- Modelled from claim C1's words, with `.`'s exact ECMAScript meaning: exact
wildcard matching of a pattern made of literal characters, `.` and `*` against
a string — each `*` (translated to `.*`) matches any sequence of
non-line-terminator characters, `.` (not escaped by the translation) keeps its
regex meaning of any single character other than a line terminator, and every
other character matches itself. -/
inductive WildMatch : List Char → List Char → Prop where
  | nil : WildMatch [] []
  | lit {c : Char} {p s : List Char} :
      c ≠ '*' → c ≠ '.' → WildMatch p s → WildMatch (c :: p) (c :: s)
  | dot {c : Char} {p s : List Char} :
      isLineTerminator c = false → WildMatch p s → WildMatch ('.' :: p) (c :: s)
  | star {p s : List Char} (gap : List Char) :
      (∀ c ∈ gap, isLineTerminator c = false) →
      WildMatch p s → WildMatch ('*' :: p) (gap ++ s)

/-- A character the modelled regex fragment fully covers: anything except the
unsupported metacharacters and the quantifiers `+`, `?`. -/
def plainChar (c : Char) : Bool := !(isUnsupportedMeta c || c = '+' || c = '?')

/-- A pattern inside the modelled fragment: only literal characters, `.` and
`*`. -/
def plainPat : List Char → Bool
  | [] => true
  | c :: rest => plainChar c && plainPat rest

/-- The token list the translate-then-parse pipeline produces on a plain
pattern: `*` becomes `.*` (any sequence), `.` stays an unescaped
any-single-character, everything else a literal. -/
def compileGlob : List Char → List RTok
  | [] => []
  | c :: rest =>
    if c = '*' then RTok.star RAtom.dot :: compileGlob rest
    else if c = '.' then RTok.once RAtom.dot :: compileGlob rest
    else RTok.once (RAtom.lit c) :: compileGlob rest

/-- Helper: unpack `plainChar`. -/
theorem plainChar_spec (c : Char) (h : plainChar c = true) :
    isUnsupportedMeta c = false ∧ ¬c = '+' ∧ ¬c = '?' := by
  simp [plainChar] at h
  exact ⟨h.1.1, h.1.2, h.2⟩

/-- Helper: unpack one step of `plainPat`. -/
theorem plainPat_cons (c : Char) (rest : List Char) (h : plainPat (c :: rest) = true) :
    plainChar c = true ∧ plainPat rest = true := by
  simp [plainPat] at h
  exact h

/-- Helper: on a plain pattern, the translated pattern never starts with a
quantifier character. -/
theorem translateStars_head_not_quant (rest : List Char) (hp : plainPat rest = true)
    (q : Char) (rest' : List Char) (heq : translateStars rest = q :: rest') :
    ¬(q = '*' ∨ q = '+' ∨ q = '?') := by
  cases rest with
  | nil => simp [translateStars] at heq
  | cons r rest2 =>
    have hr : plainChar r = true := (plainPat_cons r rest2 hp).1
    by_cases hstar : r = '*'
    · subst hstar
      have ht : translateStars ('*' :: rest2) = '.' :: '*' :: translateStars rest2 := by
        simp [translateStars]
      rw [ht] at heq
      injection heq with h1 _
      subst h1
      decide
    · have ht : translateStars (r :: rest2) = r :: translateStars rest2 := by
        simp [translateStars, hstar]
      rw [ht] at heq
      injection heq with h1 _
      subst h1
      obtain ⟨_, hplus, hquest⟩ := plainChar_spec _ hr
      rintro (h | h | h)
      · exact hstar h
      · exact hplus h
      · exact hquest h

/-- Helper: parsing a plain non-star head character prepends its bare atom. -/
theorem parseRegex_cons_plain (c : Char) (tr : List Char)
    (hc : plainChar c = true) (hcstar : ¬c = '*')
    (hq : ∀ q rest', tr = q :: rest' → ¬(q = '*' ∨ q = '+' ∨ q = '?')) :
    parseRegex (c :: tr) =
      (parseRegex tr).map
        (fun ts => RTok.once (if c = '.' then RAtom.dot else RAtom.lit c) :: ts) := by
  obtain ⟨hmeta, hplus, hquest⟩ := plainChar_spec c hc
  cases tr with
  | nil => simp [parseRegex, hmeta, hcstar, hplus, hquest]
  | cons q rest' =>
    have hqn := hq q rest' rfl
    push_neg at hqn
    simp [parseRegex, hmeta, hcstar, hplus, hquest, hqn.1, hqn.2.1, hqn.2.2]

/-- Helper: on plain patterns, translating `*` to `.*` and parsing yields
exactly the glob token list. -/
theorem parse_translate_plain : ∀ p : List Char, plainPat p = true →
    parseRegex (translateStars p) = some (compileGlob p) := by
  intro p
  induction p with
  | nil => intro _; rfl
  | cons c rest ih =>
    intro hp
    have hc : plainChar c = true := (plainPat_cons c rest hp).1
    have hrest : plainPat rest = true := (plainPat_cons c rest hp).2
    by_cases hstar : c = '*'
    · subst hstar
      have ht : translateStars ('*' :: rest) = '.' :: '*' :: translateStars rest := by
        simp [translateStars]
      rw [ht]
      simp [parseRegex, isUnsupportedMeta, ih hrest, compileGlob]
    · have ht : translateStars (c :: rest) = c :: translateStars rest := by
        simp [translateStars, hstar]
      rw [ht,
        parseRegex_cons_plain c (translateStars rest) hc hstar
          (translateStars_head_not_quant rest hrest),
        ih hrest]
      by_cases hdot : c = '.'
      · subst hdot; simp [compileGlob]
      · simp [compileGlob, hstar, hdot]

/-- Helper: one-step unfolding of `rmatch` on a starred token, valid for an
arbitrary input list. -/
theorem rmatch_star_unfold (a : RAtom) (ts : List RTok) (cs : List Char) :
    rmatch (RTok.star a :: ts) cs =
      (rmatch ts cs ||
        (match cs with
         | [] => false
         | c :: cs' => amatch a c && rmatch (RTok.star a :: ts) cs')) := by
  cases cs with
  | nil => simp [rmatch]
  | cons c cs' => simp [rmatch]

/-- Helper: unanchored search succeeds exactly when the token list matches at
some split of the input. -/
theorem regexSearch_iff (toks : List RTok) : ∀ s : List Char,
    regexSearch toks s = true ↔
      ∃ pre rest, s = pre ++ rest ∧ rmatch toks rest = true := by
  intro s
  induction s with
  | nil =>
    simp only [regexSearch]
    constructor
    · intro h; exact ⟨[], [], rfl, h⟩
    · rintro ⟨pre, rest, heq, h⟩
      obtain ⟨h1, h2⟩ := List.append_eq_nil.mp heq.symm
      subst h2
      exact h
  | cons c cs ih =>
    simp only [regexSearch, Bool.or_eq_true, ih]
    constructor
    · rintro (h | ⟨pre, rest, heq, h⟩)
      · exact ⟨[], c :: cs, rfl, h⟩
      · exact ⟨c :: pre, rest, by rw [heq]; rfl, h⟩
    · rintro ⟨pre, rest, heq, h⟩
      cases pre with
      | nil =>
        left
        rw [List.nil_append] at heq
        rw [heq]
        exact h
      | cons p pre' =>
        right
        injection heq with h1 h2
        exact ⟨pre', rest, h2, h⟩

/-- Helper (completeness): a spec-level wildcard match of the pattern against
`m` makes the compiled tokens match `m ++ post` for any tail. -/
theorem rmatch_compile_complete {p m : List Char} (h : WildMatch p m) :
    ∀ post : List Char, rmatch (compileGlob p) (m ++ post) = true := by
  induction h with
  | nil => intro post; simp [compileGlob, rmatch]
  | lit hstar hdot _ ih =>
    intro post
    simp [compileGlob, hstar, hdot, rmatch, amatch, ih post]
  | dot hlt _ ih =>
    intro post
    simp [compileGlob, rmatch, amatch, hlt, ih post]
  | star gap hgap hw ih =>
    intro post
    have hcg : ∀ q : List Char, compileGlob ('*' :: q) = RTok.star RAtom.dot :: compileGlob q := by
      intro q; simp [compileGlob]
    rw [hcg]
    induction gap with
    | nil =>
      rw [rmatch_star_unfold]
      simp [ih post]
    | cons g gap' ihg =>
      rw [rmatch_star_unfold]
      simp only [List.cons_append]
      have hg : isLineTerminator g = false := hgap g (by simp)
      have htail := ihg (fun c hc => hgap c (by simp [hc]))
      simp [amatch, hg]
      right
      simpa [List.append_assoc] using htail

/-- Helper: a spec-level star match absorbs one more leading
non-line-terminator character. -/
theorem wildMatch_star_cons {p' pre : List Char} {d : Char}
    (hd : isLineTerminator d = false) (h : WildMatch ('*' :: p') pre) :
    WildMatch ('*' :: p') (d :: pre) := by
  cases h with
  | lit hstar _ _ => exact absurd rfl hstar
  | star gap hgap hw =>
    refine WildMatch.star (d :: gap) ?_ hw
    intro c hc
    rcases List.mem_cons.mp hc with rfl | hc
    · exact hd
    · exact hgap c hc

/-- Helper (soundness): if the compiled tokens of a plain pattern match the
input, some prefix of the input is wildcard-matched by the pattern. -/
theorem rmatch_compile_sound :
    ∀ (k : Nat) (p s : List Char), p.length + s.length ≤ k →
      plainPat p = true → rmatch (compileGlob p) s = true →
      ∃ pre post, s = pre ++ post ∧ WildMatch p pre := by
  intro k
  induction k with
  | zero =>
    intro p s hlen hp h
    cases p with
    | nil => exact ⟨[], s, rfl, WildMatch.nil⟩
    | cons c p' => simp at hlen
  | succ k ihk =>
    intro p s hlen hp h
    cases p with
    | nil => exact ⟨[], s, rfl, WildMatch.nil⟩
    | cons c p' =>
      obtain ⟨hc, hp'⟩ := plainPat_cons c p' hp
      by_cases hstar : c = '*'
      · subst hstar
        rw [show compileGlob ('*' :: p') = RTok.star RAtom.dot :: compileGlob p' from by
          simp [compileGlob]] at h
        rw [rmatch_star_unfold] at h
        simp only [Bool.or_eq_true] at h
        rcases h with hL | hR
        · obtain ⟨pre, post, rfl, wm⟩ := ihk p' s (by simp at hlen ⊢; omega) hp' hL
          exact ⟨pre, post, rfl, WildMatch.star [] (by simp) wm⟩
        · cases s with
          | nil => simp at hR
          | cons d s' =>
            simp only [amatch, Bool.and_eq_true, Bool.not_eq_true'] at hR
            obtain ⟨hd, hR2⟩ := hR
            obtain ⟨pre, post, heq, wm⟩ :=
              ihk ('*' :: p') s' (by simp at hlen ⊢; omega) hp
                (by
                  rw [show compileGlob ('*' :: p') = RTok.star RAtom.dot :: compileGlob p' from by
                    simp [compileGlob]]
                  exact hR2)
            exact ⟨d :: pre, post, by rw [heq]; rfl, wildMatch_star_cons hd wm⟩
      · by_cases hdot : c = '.'
        · subst hdot
          rw [show compileGlob ('.' :: p') = RTok.once RAtom.dot :: compileGlob p' from by
            simp [compileGlob]] at h
          cases s with
          | nil => simp [rmatch] at h
          | cons d s' =>
            simp only [rmatch, amatch, Bool.and_eq_true, Bool.not_eq_true'] at h
            obtain ⟨hd, h2⟩ := h
            obtain ⟨pre, post, heq, wm⟩ := ihk p' s' (by simp at hlen ⊢; omega) hp' h2
            exact ⟨d :: pre, post, by rw [heq]; rfl, WildMatch.dot hd wm⟩
        · rw [show compileGlob (c :: p') = RTok.once (RAtom.lit c) :: compileGlob p' from by
            simp [compileGlob, hstar, hdot]] at h
          cases s with
          | nil => simp [rmatch] at h
          | cons d s' =>
            simp only [rmatch, amatch, Bool.and_eq_true, decide_eq_true_eq] at h
            obtain ⟨hcd, h2⟩ := h
            subst hcd
            obtain ⟨pre, post, heq, wm⟩ := ihk p' s' (by simp at hlen ⊢; omega) hp' h2
            exact ⟨c :: pre, post, by rw [heq]; rfl, WildMatch.lit hstar hdot wm⟩

/-- Claim C1: for a pattern of the modelled fragment containing `*` and not
ending with `/`, `shouldIgnorePath` matches exactly when some substring of the
relative path is wildcard-matched by the pattern — each `*` matches any
sequence of non-line-terminator characters (JS `.*` without the `s` flag), an
unescaped `.` matches any single non-line-terminator character, every other
character matches itself, and the search is unanchored at both ends. -/
theorem claim_wildcard_semantics (pat path : String)
    (hplain : plainPat pat.data = true)
    (hstar : strContainsChar pat '*' = true)
    (hslash : strEndsWith pat "/" = false) :
    shouldIgnorePath path [pat] = true ↔
      ∃ pre mid post : List Char,
        path.data = pre ++ mid ++ post ∧ WildMatch pat.data mid := by
  have hmp : shouldIgnorePath path [pat] = regexSearch (compileGlob pat.data) path.data := by
    simp [shouldIgnorePath, matchesPattern, hslash, hstar,
      parse_translate_plain pat.data hplain]
  rw [hmp, regexSearch_iff]
  constructor
  · rintro ⟨pre, rest, hsplit, h⟩
    obtain ⟨mid, post, hrest, wm⟩ :=
      rmatch_compile_sound (pat.data.length + rest.length) pat.data rest le_rfl hplain h
    exact ⟨pre, mid, post, by rw [hsplit, hrest]; simp [List.append_assoc], wm⟩
  · rintro ⟨pre, mid, post, heq, wm⟩
    exact ⟨pre, mid ++ post, by rw [heq]; simp [List.append_assoc],
      rmatch_compile_complete wm post⟩

/-- Witness for C1 at the spec's examples, plus `fooXlog` showing the
unescaped `.` matching an arbitrary character. -/
theorem claim_wildcard_semantics_witness :
    shouldIgnorePath "foo.log" ["*.log"] = true ∧
    shouldIgnorePath "foo.log.bak" ["*.log"] = true ∧
    shouldIgnorePath "fooXlog" ["*.log"] = true := by
  have wtail : WildMatch ['.', 'l', 'o', 'g'] ['.', 'l', 'o', 'g'] :=
    WildMatch.dot (by decide) (WildMatch.lit (by decide) (by decide)
      (WildMatch.lit (by decide) (by decide)
        (WildMatch.lit (by decide) (by decide) WildMatch.nil)))
  refine ⟨?_, ?_, ?_⟩
  · exact (claim_wildcard_semantics "*.log" "foo.log" (by decide) (by decide)
      (by decide)).mpr
      ⟨[], "foo.log".data, [], by simp,
        show WildMatch ('*' :: ['.', 'l', 'o', 'g']) (['f', 'o', 'o'] ++ ['.', 'l', 'o', 'g'])
          from WildMatch.star ['f', 'o', 'o'] (by decide) wtail⟩
  · exact (claim_wildcard_semantics "*.log" "foo.log.bak" (by decide) (by decide)
      (by decide)).mpr
      ⟨[], "foo.log".data, ".bak".data, by simp,
        show WildMatch ('*' :: ['.', 'l', 'o', 'g']) (['f', 'o', 'o'] ++ ['.', 'l', 'o', 'g'])
          from WildMatch.star ['f', 'o', 'o'] (by decide) wtail⟩
  · exact (claim_wildcard_semantics "*.log" "fooXlog" (by decide) (by decide)
      (by decide)).mpr
      ⟨[], "fooXlog".data, [],  by simp,
        show WildMatch ('*' :: ['.', 'l', 'o', 'g']) (['f', 'o', 'o'] ++ 'X' :: ['l', 'o', 'g'])
          from WildMatch.star ['f', 'o', 'o'] (by decide) (WildMatch.dot (by decide)
            (WildMatch.lit (by decide) (by decide)
              (WildMatch.lit (by decide) (by decide)
                (WildMatch.lit (by decide) (by decide) WildMatch.nil))))⟩
